import Mathlib

/-! Filter pipeline of `src/filter.c`: a shallow embedding of the text classifier
(`git_text_gather_stats`, `git_text_is_binary`) and of the filter-chain executor
(`git_filters_apply`), followed by the properties proved about them. -/

namespace Filter

/-! ## Buffers -/

/-- Modelled from the spec: the growable buffer (`git_buf`, declared in `buffer.h`, which is
not among the sources). `ptr` holds the `size` content bytes; `oom` is the state answered by
the out-of-memory query. -/
structure git_buf where
  ptr : List UInt8
  oom : Bool
deriving DecidableEq

/-- The `size` field of a buffer: the number of content bytes. -/
def git_buf.size (b : git_buf) : Nat := b.ptr.length

/-! ## Text statistics -/

/-- Modelled from the spec: the statistics record (`git_text_stats`, declared in `filter.h`,
which is not among the sources): six non-negative counts. -/
structure git_text_stats where
  nul : Nat
  cr : Nat
  lf : Nat
  crlf : Nat
  printable : Nat
  nonprintable : Nat
deriving DecidableEq

/-- The byte `text->ptr[i]` read as an `unsigned char`. -/
def byte_at (text : git_buf) (i : Nat) : Nat := (text.ptr.getD i 0).toNat

/-- One iteration of the scan loop of `git_text_gather_stats`, at index `i`. -/
def gather_step (text : git_buf) (i : Nat) (stats : git_text_stats) : git_text_stats :=
  let c := byte_at text i
  if c = 13 then
    let stats := { stats with cr := stats.cr + 1 }
    if i + 1 < text.size ∧ byte_at text (i + 1) = 10 then
      { stats with crlf := stats.crlf + 1 }
    else stats
  else if c = 10 then
    { stats with lf := stats.lf + 1 }
  else if c = 127 then
    { stats with nonprintable := stats.nonprintable + 1 }
  else if c < 32 then
    if c = 8 ∨ c = 9 ∨ c = 27 ∨ c = 12 then
      { stats with printable := stats.printable + 1 }
    else if c = 0 then
      { stats with nul := stats.nul + 1, nonprintable := stats.nonprintable + 1 }
    else
      { stats with nonprintable := stats.nonprintable + 1 }
  else
    { stats with printable := stats.printable + 1 }

/-- The loop `for (i = ...; i < text->size; i++)` with `n` iterations left. -/
def gather_loop (text : git_buf) : Nat → Nat → git_text_stats → git_text_stats
  | 0, _, stats => stats
  | n + 1, i, stats => gather_loop text n (i + 1) (gather_step text i stats)

/-- The function `git_text_gather_stats`: zero the record, scan every byte, then take a
trailing `0x1A` back out of the nonprintable tally. -/
def git_text_gather_stats (text : git_buf) : git_text_stats :=
  let stats := gather_loop text text.size 0 ⟨0, 0, 0, 0, 0, 0⟩
  if text.size ≥ 1 ∧ byte_at text (text.size - 1) = 26 then
    { stats with nonprintable := stats.nonprintable - 1 }
  else stats

/-- The function `git_text_is_binary`. -/
def git_text_is_binary (stats : git_text_stats) : Int :=
  if stats.nul ≠ 0 then 1
  else if (stats.printable >>> 7) < stats.nonprintable then 1
  else 0

/-! ## Filter chains -/

/-- Modelled from the spec: the success code (`GIT_SUCCESS`, declared in a header that is
not among the sources). The source itself returns a literal zero for it. -/
def GIT_SUCCESS : Int := 0

/-- Modelled from the spec: the out-of-memory error code (`GIT_ENOMEM`, declared in a header
that is not among the sources): a negative code. -/
def GIT_ENOMEM : Int := -4

/-- Modelled from the spec: `clear()` of the growable buffer (`git_buf_clear`, in `buffer.c`,
which is not among the sources): the content is dropped. -/
def git_buf_clear (b : git_buf) : git_buf := { b with ptr := [] }

/-- Modelled from the spec: the out-of-memory query of the growable buffer (`git_buf_oom`,
in `buffer.c`, which is not among the sources). -/
def git_buf_oom (b : git_buf) : Bool := b.oom

/-- Modelled from the spec: `swap(other)` of the growable buffer (`git_buf_swap`, in
`buffer.c`, which is not among the sources): the two buffers exchange their whole state. -/
def git_buf_swap (a b : git_buf) : git_buf × git_buf := (b, a)

/-- Modelled from the spec: `grow(targetSize)` of the growable buffer (`git_buf_grow`, in
`buffer.c`, which is not among the sources). Whether the allocation succeeds is decided by
the allocator, here the argument `alloc_ok`; a failure is a negative return and leaves the
buffer in the out-of-memory state, a success keeps the content. -/
def git_buf_grow (b : git_buf) (_target_size : Nat) (alloc_ok : Bool) : Int × git_buf :=
  if alloc_ok then (0, b) else (-1, { b with oom := true })

/-- Modelled from the spec: a stage (`git_filter`, declared in `filter.h`, which is not among
the sources). `apply dest src` is the call `filter->apply(filter, dest, src)`: it reads the
source buffer and returns its status together with the destination buffer as it leaves it. -/
structure git_filter where
  apply : git_buf → git_buf → Int × git_buf

/-- The variables of `git_filters_apply` that the loop updates: the two buffers behind
`dbuffer[0]` (`source`) and `dbuffer[1]` (`dest`), the indices `src` and `dst`, and a log of
the `apply` calls made so far (index of the stage and the input buffer it was given). -/
structure apply_state where
  source : git_buf
  dest : git_buf
  src : Nat
  dst : Nat
  calls : List (Nat × git_buf)

/-- The buffer `dbuffer[k]`. -/
def apply_state.dbuffer (s : apply_state) (k : Nat) : git_buf :=
  if k = 0 then s.source else s.dest

/-- Assignment through the pointer `dbuffer[k]`. -/
def apply_state.set_dbuffer (s : apply_state) (k : Nat) (b : git_buf) : apply_state :=
  if k = 0 then { s with source := b } else { s with dest := b }

/-- The loop of `git_filters_apply` over the stages from index `i` on. The flag of the result
is `true` when the loop was left by `return GIT_ENOMEM`. -/
def filters_loop : List git_filter → Nat → apply_state → Bool × apply_state
  | [], _, s => (false, s)
  | filter :: rest, i, s =>
    let dst := (s.src + 1) % 2
    let s := { s with dst := dst }
    let s := s.set_dbuffer dst (git_buf_clear (s.dbuffer dst))
    let r := filter.apply (s.dbuffer dst) (s.dbuffer s.src)
    let s := { s with calls := s.calls ++ [(i, s.dbuffer s.src)] }
    let s := s.set_dbuffer dst r.2
    let s := if r.1 = 0 then { s with src := (s.src + 1) % 2 } else s
    if git_buf_oom (s.dbuffer dst) then (true, s)
    else filters_loop rest (i + 1) s

/-- What a call of `git_filters_apply` leaves behind: the return value, the two buffers of
the caller, and the log of the `apply` calls. -/
structure apply_result where
  ret : Int
  dest : git_buf
  source : git_buf
  calls : List (Nat × git_buf)

/-- The function `git_filters_apply`. The local `dst` is declared without an initial value
and is first assigned inside the loop; `dst_indet` is the indeterminate value it holds until
then. `alloc_ok` is the outcome of the allocation behind `git_buf_grow`. -/
def git_filters_apply (dest source : git_buf) (filters : List git_filter)
    (alloc_ok : Bool) (dst_indet : Nat) : apply_result :=
  let s : apply_state := ⟨source, dest, 0, dst_indet, []⟩
  if source.size = 0 then
    ⟨GIT_SUCCESS, git_buf_clear dest, source, []⟩
  else
    let g := git_buf_grow s.dest source.size alloc_ok
    let s := { s with dest := g.2 }
    if g.1 < 0 then
      ⟨GIT_ENOMEM, s.dest, s.source, s.calls⟩
    else
      let l := filters_loop filters 0 s
      let s := l.2
      if l.1 then
        ⟨GIT_ENOMEM, s.dest, s.source, s.calls⟩
      else if s.dst ≠ 1 then
        let w := git_buf_swap s.dest s.source
        ⟨GIT_SUCCESS, w.1, w.2, s.calls⟩
      else
        ⟨GIT_SUCCESS, s.dest, s.source, s.calls⟩

/-- The value the pipeline is meant to deliver: the stages folded in chain order over the
current value, a stage with status zero replacing it by its output and a stage with another
status leaving it as it is. Each stage writes into a cleared scratch buffer. -/
def pipeline_result : List git_filter → git_buf → git_buf
  | [], cur => cur
  | filter :: rest, cur =>
    let r := filter.apply (git_buf_clear ⟨[], false⟩) cur
    if r.1 = 0 then pipeline_result rest r.2 else pipeline_result rest cur

/-- A stage that copies its input with the byte `b` appended and returns status `st`. -/
def append_stage (b : UInt8) (st : Int) : git_filter :=
  ⟨fun dest src => (st, { dest with ptr := src.ptr ++ [b] })⟩

/-- A stage that writes the fixed bytes `out` and returns status `st`. -/
def const_stage (out : List UInt8) (st : Int) : git_filter :=
  ⟨fun dest _ => (st, { dest with ptr := out })⟩

/-- A stage that leaves its destination in the out-of-memory state and returns status
`st`. -/
def oom_stage (st : Int) : git_filter :=
  ⟨fun dest _ => (st, { dest with oom := true })⟩

/-- A stage that returns status `st` and copies its input with the byte `b` appended, except
on an input of more than five bytes, where it leaves its destination in the out-of-memory
state. -/
def picky_stage (b : UInt8) (st : Int) : git_filter :=
  ⟨fun dest src =>
    (st, if 5 < src.ptr.length then { dest with oom := true }
      else { dest with ptr := src.ptr ++ [b] })⟩

/-- The line-feed count in the wording of the specification: the `0x0A` bytes that are not
immediately preceded by a `0x0D` byte. -/
def lone_lf_count (text : git_buf) : Nat :=
  (List.range text.size).countP
    (fun i => decide (text.ptr[i]? = some 0x0A ∧ ¬ (0 < i ∧ text.ptr[i - 1]? = some 0x0D)))

/-! ## Repository settings and chain construction -/

/-- Modelled from the spec: the not-found code of the configuration store (`GIT_ENOTFOUND`,
declared in a header that is not among the sources): a negative code. -/
def GIT_ENOTFOUND : Int := -3

/-- Modelled from the spec: the code of the unimplemented direction (`GIT_ENOTIMPLEMENTED`,
declared in a header that is not among the sources): a negative code. -/
def GIT_ENOTIMPLEMENTED : Int := -22

/-- Modelled from the spec: the mode of the to-storage direction (`GIT_FILTER_TO_ODB`,
declared in `filter.h`, which is not among the sources). -/
def GIT_FILTER_TO_ODB : Int := 1

/-- Modelled from the spec: the end-of-line policy (`git_eol_t`, declared in `filter.h`,
which is not among the sources). -/
inductive git_eol_t where
  | GIT_EOL_UNSET
  | GIT_EOL_LF
  | GIT_EOL_CRLF
  | GIT_EOL_NATIVE
deriving DecidableEq

/-- Modelled from the spec: the automatic conversion policy (`git_crlf_t`, declared in
`filter.h`, which is not among the sources). -/
inductive git_crlf_t where
  | GIT_AUTO_CRLF_FALSE
  | GIT_AUTO_CRLF_TRUE
  | GIT_AUTO_CRLF_INPUT
deriving DecidableEq

/-- Modelled from the spec: the default end-of-line policy (`GIT_EOL_DEFAULT`). -/
def GIT_EOL_DEFAULT : git_eol_t := git_eol_t.GIT_EOL_UNSET

/-- Modelled from the spec: the default conversion policy (`GIT_AUTO_CRLF_DEFAULT`). -/
def GIT_AUTO_CRLF_DEFAULT : git_crlf_t := git_crlf_t.GIT_AUTO_CRLF_FALSE

/-- The cached settings `repo->filter_options`. -/
structure filter_options where
  eol : git_eol_t
  auto_crlf : git_crlf_t
  loaded : Bool
deriving DecidableEq

/-- The part of `git_repository` that `filter.c` touches. -/
structure git_repository where
  filter_options : filter_options
deriving DecidableEq

/-- Modelled from the spec: what the configuration store answers to one mapped lookup: a
value already mapped through the table of the caller, the not-found signal, or a hard error
with its code. -/
inductive lookup_outcome (α : Type) where
  | value (v : α)
  | not_found
  | error (code : Int)

/-- The value found by a lookup, or `d` when the lookup found none. -/
def lookup_outcome.found_or {α : Type} (o : lookup_outcome α) (d : α) : α :=
  match o with
  | lookup_outcome.value v => v
  | _ => d

/-- Modelled from the spec: the configuration store as `load_repository_settings` sees it
(`git_repository_config__weakptr` and `git_config_get_mapped` are not among the sources):
the return value of obtaining the handle, and the outcome of the lookups of `core.eol`
through `map_eol` and of `core.auto_crlf` through `map_crlf`. -/
structure config_store where
  weakptr_ret : Int
  core_eol : lookup_outcome git_eol_t
  core_auto_crlf : lookup_outcome git_crlf_t

/-- Modelled from the spec: the call `git_config_get_mapped(config, name, map, n, &out)`
(not among the sources), given the outcome of the store: the return value and the content
of `out` afterwards, which is written only when a value was found. -/
def git_config_get_mapped {α : Type} (o : lookup_outcome α) (out : α) : Int × α :=
  match o with
  | lookup_outcome.value v => (GIT_SUCCESS, v)
  | lookup_outcome.not_found => (GIT_ENOTFOUND, out)
  | lookup_outcome.error code => (code, out)

/-- What a call of `load_repository_settings` leaves behind: the return value, the
repository, and the keys looked up in the configuration store, in order. -/
structure load_result where
  ret : Int
  repo : git_repository
  queries : List String

/-- The function `load_repository_settings`. -/
def load_repository_settings (repo : git_repository) (cfg : config_store) : load_result :=
  if repo.filter_options.loaded then
    ⟨GIT_SUCCESS, repo, []⟩
  else
    let repo : git_repository :=
      ⟨{ repo.filter_options with eol := GIT_EOL_DEFAULT }⟩
    let repo : git_repository :=
      ⟨{ repo.filter_options with auto_crlf := GIT_AUTO_CRLF_DEFAULT }⟩
    let error := cfg.weakptr_ret
    if error < GIT_SUCCESS then
      ⟨error, repo, []⟩
    else
      let r := git_config_get_mapped cfg.core_eol repo.filter_options.eol
      let error := r.1
      let repo : git_repository := ⟨{ repo.filter_options with eol := r.2 }⟩
      if error < GIT_SUCCESS ∧ error ≠ GIT_ENOTFOUND then
        ⟨error, repo, ["core.eol"]⟩
      else
        let r := git_config_get_mapped cfg.core_auto_crlf repo.filter_options.auto_crlf
        let error := r.1
        let repo : git_repository := ⟨{ repo.filter_options with auto_crlf := r.2 }⟩
        if error < GIT_SUCCESS ∧ error ≠ GIT_ENOTFOUND then
          ⟨error, repo, ["core.eol", "core.auto_crlf"]⟩
        else
          ⟨0, ⟨{ repo.filter_options with loaded := true }⟩, ["core.eol", "core.auto_crlf"]⟩

/-- What a call of `git_filters_load` leaves behind: the return value, the chain, the
repository, and the keys looked up in the configuration store. -/
structure filters_load_result where
  ret : Int
  filters : List git_filter
  repo : git_repository
  queries : List String

/-- The function `git_filters_load`. The call `git__throw(code, message)` returns its
code. The constructor of the normalization-to-storage stage (`git_filter_add__crlf_to_odb`,
in `crlf.c`, which is not among the sources) is an argument: a function of the chain, the
repository and the path that gives its return value and the chain afterwards. -/
def git_filters_load (filters : List git_filter) (repo : git_repository) (path : String)
    (mode : Int) (cfg : config_store)
    (git_filter_add__crlf_to_odb :
      List git_filter → git_repository → String → Int × List git_filter) :
    filters_load_result :=
  let l := load_repository_settings repo cfg
  let error := l.ret
  if error < GIT_SUCCESS then
    ⟨error, filters, l.repo, l.queries⟩
  else if mode = GIT_FILTER_TO_ODB then
    let a := git_filter_add__crlf_to_odb filters l.repo path
    let error := a.1
    if error < GIT_SUCCESS then
      ⟨error, a.2, l.repo, l.queries⟩
    else
      ⟨(a.2.length : Int), a.2, l.repo, l.queries⟩
  else
    ⟨GIT_ENOTIMPLEMENTED, filters, l.repo, l.queries⟩

/-- A constructor that appends one stage, the one copying its input with a line feed
appended, and returns success. -/
def add_one_stage (filters : List git_filter) (_repo : git_repository) (_path : String) :
    Int × List git_filter :=
  (0, filters ++ [append_stage 10 0])

/-- A repository whose settings are not loaded yet. -/
def repo_fresh : git_repository :=
  ⟨⟨git_eol_t.GIT_EOL_UNSET, git_crlf_t.GIT_AUTO_CRLF_FALSE, false⟩⟩

/-- A repository whose settings are loaded. -/
def repo_loaded : git_repository :=
  ⟨⟨git_eol_t.GIT_EOL_LF, git_crlf_t.GIT_AUTO_CRLF_INPUT, true⟩⟩

/-- A configuration store that has `core.eol = crlf` and no `core.auto_crlf`. -/
def cfg_eol_crlf : config_store :=
  ⟨0, lookup_outcome.value git_eol_t.GIT_EOL_CRLF, lookup_outcome.not_found⟩

/-- A configuration store whose lookup of `core.auto_crlf` fails with the code `-1`. -/
def cfg_crlf_error : config_store :=
  ⟨0, lookup_outcome.value git_eol_t.GIT_EOL_LF, lookup_outcome.error (-1)⟩

/-- A configuration store whose lookup of `core.eol` fails with the code `-1`. -/
def cfg_eol_error : config_store :=
  ⟨0, lookup_outcome.error (-1), lookup_outcome.value git_crlf_t.GIT_AUTO_CRLF_TRUE⟩

/-- A configuration store whose handle cannot be obtained, with the code `-1`. -/
def cfg_no_handle : config_store :=
  ⟨-1, lookup_outcome.not_found, lookup_outcome.not_found⟩

/-! ## Lemmas on the scan loop -/

/-- A field that each step raises by one exactly at the indices selected by `P` ends the loop
raised by the number of selected indices. -/
theorem gather_loop_count (text : git_buf) (p : git_text_stats → Nat) (P : Nat → Bool)
    (hstep : ∀ i s, p (gather_step text i s) = p s + if P i then 1 else 0) :
    ∀ n i s, p (gather_loop text n i s) = p s + (List.range' i n).countP P := by
  intro n
  induction n with
  | zero => intro i s; simp [gather_loop]
  | succ n ih =>
    intro i s
    rw [gather_loop, ih, hstep, List.range'_succ, List.countP_cons]
    omega

/-- Reading every index of a list gives the list back. -/
theorem map_getD_range (l : List UInt8) :
    (List.range' 0 l.length).map (fun i => l.getD i 0) = l := by
  apply List.ext_getElem
  · simp
  · intro i h1 h2
    simp at h1
    simp [List.getD_eq_getElem, h1]

/-- Counting indices by the byte found there is counting bytes. -/
theorem countP_range_bytes (l : List UInt8) (Q : Nat → Bool) :
    (List.range' 0 l.length).countP (fun i => Q (l.getD i 0).toNat)
      = l.countP (fun b => Q b.toNat) := by
  have h := List.countP_map (fun b : UInt8 => Q b.toNat) (fun i => l.getD i 0)
    (List.range' 0 l.length)
  rw [map_getD_range] at h
  rw [h]
  rfl

theorem gather_step_nul (text : git_buf) (i : Nat) (s : git_text_stats) :
    (gather_step text i s).nul = s.nul + if decide (byte_at text i = 0) then 1 else 0 := by
  unfold gather_step
  simp only []
  split_ifs <;> simp_all

theorem gather_step_cr (text : git_buf) (i : Nat) (s : git_text_stats) :
    (gather_step text i s).cr = s.cr + if decide (byte_at text i = 13) then 1 else 0 := by
  unfold gather_step
  simp only []
  split_ifs <;> simp_all

theorem gather_step_lf (text : git_buf) (i : Nat) (s : git_text_stats) :
    (gather_step text i s).lf = s.lf + if decide (byte_at text i = 10) then 1 else 0 := by
  unfold gather_step
  simp only []
  split_ifs <;> simp_all

theorem gather_step_crlf (text : git_buf) (i : Nat) (s : git_text_stats) :
    (gather_step text i s).crlf = s.crlf +
      if decide (byte_at text i = 13 ∧ i + 1 < text.size ∧ byte_at text (i + 1) = 10)
      then 1 else 0 := by
  unfold gather_step
  simp only []
  split_ifs <;> simp_all

theorem gather_step_printable (text : git_buf) (i : Nat) (s : git_text_stats) :
    (gather_step text i s).printable = s.printable +
      if decide (byte_at text i = 8 ∨ byte_at text i = 9 ∨ byte_at text i = 12 ∨
        byte_at text i = 27 ∨ (32 ≤ byte_at text i ∧ byte_at text i ≠ 127))
      then 1 else 0 := by
  unfold gather_step
  simp only []
  split_ifs <;> simp_all
  all_goals omega

theorem gather_step_nonprintable (text : git_buf) (i : Nat) (s : git_text_stats) :
    (gather_step text i s).nonprintable = s.nonprintable +
      if decide (byte_at text i = 127 ∨ (byte_at text i < 32 ∧ byte_at text i ≠ 8 ∧
        byte_at text i ≠ 9 ∧ byte_at text i ≠ 10 ∧ byte_at text i ≠ 12 ∧
        byte_at text i ≠ 13 ∧ byte_at text i ≠ 27))
      then 1 else 0 := by
  unfold gather_step
  simp only []
  split_ifs <;> simp_all
  all_goals omega


/-- The loop started on the zeroed record, for a field counting the bytes selected by `Q`. -/
theorem gather_loop_bytes (text : git_buf) (p : git_text_stats → Nat) (Q : Nat → Bool)
    (h0 : p ⟨0, 0, 0, 0, 0, 0⟩ = 0)
    (hstep : ∀ i s, p (gather_step text i s) = p s + if Q (byte_at text i) then 1 else 0) :
    p (gather_loop text text.size 0 ⟨0, 0, 0, 0, 0, 0⟩)
      = text.ptr.countP (fun b => Q b.toNat) := by
  rw [gather_loop_count text p (fun i => Q (byte_at text i)) hstep, h0, Nat.zero_add]
  exact countP_range_bytes text.ptr Q

/-- The closing adjustment of `git_text_gather_stats` touches the nonprintable tally only. -/
theorem gather_stats_other_fields (text : git_buf) :
    (git_text_gather_stats text).nul = (gather_loop text text.size 0 ⟨0, 0, 0, 0, 0, 0⟩).nul ∧
    (git_text_gather_stats text).cr = (gather_loop text text.size 0 ⟨0, 0, 0, 0, 0, 0⟩).cr ∧
    (git_text_gather_stats text).lf = (gather_loop text text.size 0 ⟨0, 0, 0, 0, 0, 0⟩).lf ∧
    (git_text_gather_stats text).crlf = (gather_loop text text.size 0 ⟨0, 0, 0, 0, 0, 0⟩).crlf ∧
    (git_text_gather_stats text).printable
      = (gather_loop text text.size 0 ⟨0, 0, 0, 0, 0, 0⟩).printable := by
  unfold git_text_gather_stats
  simp only []
  split_ifs <;> simp

/-- The nul field is the number of zero bytes. -/
theorem gather_stats_nul (text : git_buf) :
    (git_text_gather_stats text).nul = text.ptr.countP (fun b => decide (b.toNat = 0)) := by
  rw [(gather_stats_other_fields text).1]
  exact gather_loop_bytes text (fun s => s.nul) (fun c => decide (c = 0)) rfl
    (gather_step_nul text)

/-- Inside the buffer, the byte read at an index is the content byte there. -/
theorem byte_at_eq_iff (text : git_buf) (i : Nat) (b : UInt8) (h : i < text.size) :
    byte_at text i = b.toNat ↔ text.ptr[i]? = some b := by
  unfold git_buf.size at h
  unfold byte_at
  rw [List.getD_eq_getElem _ _ h, List.getElem?_eq_getElem h]
  constructor
  · intro e; rw [UInt8.ext e]
  · intro e; rw [Option.some.inj e]

/-- The test that ends `git_text_gather_stats` asks whether the last byte is `0x1A`. -/
theorem eof_test_iff (text : git_buf) :
    (text.size ≥ 1 ∧ byte_at text (text.size - 1) = 26) ↔ text.ptr.getLast? = some 26 := by
  rw [List.getLast?_eq_getElem?]
  constructor
  · rintro ⟨h1, h2⟩
    exact (byte_at_eq_iff text (text.size - 1) 26 (by omega)).mp h2
  · intro h
    have hlt : text.ptr.length - 1 < text.ptr.length := by
      by_contra hn
      rw [List.getElem?_eq_none (by omega)] at h
      exact Option.noConfusion h
    have h1 : text.size ≥ 1 := by unfold git_buf.size; omega
    exact ⟨h1, (byte_at_eq_iff text (text.size - 1) 26 (by unfold git_buf.size; omega)).mpr h⟩

/-! ## The text classifier -/

/-- C6: every buffer that contains a NUL byte is classified as binary (the function returns
one) by `git_text_is_binary` on the statistics gathered from it, whatever its other bytes. -/
theorem git_text_is_binary_of_nul (text : git_buf) (h : (0 : UInt8) ∈ text.ptr) :
    git_text_is_binary (git_text_gather_stats text) = 1 := by
  have hpos : 0 < (git_text_gather_stats text).nul := by
    rw [gather_stats_nul, List.countP_pos_iff]
    exact ⟨0, h, by decide⟩
  unfold git_text_is_binary
  rw [if_pos (by omega)]

/-- Witness of C6 on the three bytes `A`, NUL, `B`. -/
theorem git_text_is_binary_of_nul_witness :
    (0 : UInt8) ∈ [65, 0, 66] ∧
      git_text_is_binary (git_text_gather_stats ⟨[65, 0, 66], false⟩) = 1 :=
  ⟨by decide, git_text_is_binary_of_nul ⟨[65, 0, 66], false⟩ (by decide)⟩

/-- C7: `git_text_is_binary` returns one exactly when `nul > 0` or
`nonprintable * 128 > printable`, the shifted comparison `printable >> 7 < nonprintable`
being the same as `nonprintable * 128 > printable`; with `nul = 0` and
`nonprintable * 128 ≤ printable` it returns zero. -/
theorem git_text_is_binary_iff (stats : git_text_stats) :
    (git_text_is_binary stats = 1 ↔
      (stats.nul > 0 ∨ stats.nonprintable * 128 > stats.printable)) ∧
    (stats.printable >>> 7 < stats.nonprintable ↔
      stats.nonprintable * 128 > stats.printable) ∧
    (stats.nul = 0 → stats.nonprintable * 128 ≤ stats.printable →
      git_text_is_binary stats = 0) := by
  have hs : stats.printable >>> 7 < stats.nonprintable ↔
      stats.nonprintable * 128 > stats.printable := by
    rw [Nat.shiftRight_eq_div_pow]
    exact Nat.div_lt_iff_lt_mul (by norm_num)
  refine ⟨?_, hs, ?_⟩
  · unfold git_text_is_binary
    split_ifs with h1 h2
    · simp; omega
    · simp; right; exact hs.mp h2
    · simp
      constructor
      · omega
      · exact Nat.le_of_not_lt (fun h => h2 (hs.mpr h))
  · intro h1 h2
    unfold git_text_is_binary
    have h3 : ¬ stats.printable >>> 7 < stats.nonprintable := fun h => by
      have := hs.mp h
      omega
    simp [h1, h3]

/-- Witness of C7 on the statistics with 128 printable and one nonprintable byte. -/
theorem git_text_is_binary_iff_witness :
    (0 : Nat) = 0 ∧ 1 * 128 ≤ 128 ∧ git_text_is_binary ⟨0, 0, 0, 0, 128, 1⟩ = 0 :=
  ⟨rfl, by decide, (git_text_is_binary_iff ⟨0, 0, 0, 0, 128, 1⟩).2.2 rfl (by decide)⟩

/-- C8: with `N` the number of bytes that classify as nonprintable (`0x7F`, or below `0x20`
and none of `0x08`, `0x09`, `0x0A`, `0x0C`, `0x0D`, `0x1B`), `git_text_gather_stats` yields
`nonprintable + 1 = N` when the buffer ends in `0x1A` (one less, without wrapping), and
`nonprintable = N` otherwise. -/
theorem gather_stats_nonprintable (text : git_buf) :
    if text.ptr.getLast? = some 0x1A then
      (git_text_gather_stats text).nonprintable + 1 =
        text.ptr.countP (fun b => decide (b.toNat = 0x7F ∨ (b.toNat < 0x20 ∧
          b.toNat ≠ 0x08 ∧ b.toNat ≠ 0x09 ∧ b.toNat ≠ 0x0A ∧ b.toNat ≠ 0x0C ∧
          b.toNat ≠ 0x0D ∧ b.toNat ≠ 0x1B)))
    else
      (git_text_gather_stats text).nonprintable =
        text.ptr.countP (fun b => decide (b.toNat = 0x7F ∨ (b.toNat < 0x20 ∧
          b.toNat ≠ 0x08 ∧ b.toNat ≠ 0x09 ∧ b.toNat ≠ 0x0A ∧ b.toNat ≠ 0x0C ∧
          b.toNat ≠ 0x0D ∧ b.toNat ≠ 0x1B))) := by
  have hloop := gather_loop_bytes text (fun s => s.nonprintable)
    (fun c => decide (c = 127 ∨ (c < 32 ∧ c ≠ 8 ∧ c ≠ 9 ∧ c ≠ 10 ∧ c ≠ 12 ∧ c ≠ 13 ∧ c ≠ 27)))
    rfl (gather_step_nonprintable text)
  simp only [] at hloop
  unfold git_text_gather_stats
  simp only []
  by_cases hl : text.ptr.getLast? = some 0x1A
  · rw [if_pos hl, if_pos ((eof_test_iff text).mpr hl)]
    simp only []
    rw [hloop]
    have hpos : 0 < text.ptr.countP (fun b => decide (b.toNat = 127 ∨ (b.toNat < 32 ∧
        b.toNat ≠ 8 ∧ b.toNat ≠ 9 ∧ b.toNat ≠ 10 ∧ b.toNat ≠ 12 ∧ b.toNat ≠ 13 ∧
        b.toNat ≠ 27))) := by
      rw [List.countP_pos_iff]
      exact ⟨0x1A, List.mem_of_getLast?_eq_some hl, by decide⟩
    omega
  · rw [if_neg hl, if_neg (fun h => hl ((eof_test_iff text).mp h))]
    exact hloop

/-- C9, as the code has it: the lf count of `git_text_gather_stats` is the number of all
`0x0A` bytes of the buffer, those that follow a `0x0D` included. -/
theorem gather_stats_lf (text : git_buf) :
    (git_text_gather_stats text).lf = text.ptr.countP (fun b => decide (b.toNat = 0x0A)) := by
  rw [(gather_stats_other_fields text).2.2.1]
  exact gather_loop_bytes text (fun s => s.lf) (fun c => decide (c = 10)) rfl
    (gather_step_lf text)

/-- C9 fails on the two bytes CR LF: the code counts one lf, and no `0x0A` byte there is
without a `0x0D` right before it. -/
theorem gather_stats_lf_counts_crlf :
    (git_text_gather_stats ⟨[0x0D, 0x0A], false⟩).lf = 1 ∧
      lone_lf_count ⟨[0x0D, 0x0A], false⟩ = 0 ∧
      (git_text_gather_stats ⟨[0x0D, 0x0A], false⟩).lf ≠ lone_lf_count ⟨[0x0D, 0x0A], false⟩ := by
  decide

/-- C10: `git_text_gather_stats` yields cr = the number of `0x0D` bytes, crlf = the number of
positions holding `0x0D` with `0x0A` right after, nul = the number of `0x00` bytes, and
printable = the number of bytes that are `0x08`, `0x09`, `0x0C`, `0x1B`, or at least `0x20`
and not `0x7F`. -/
theorem gather_stats_counts (text : git_buf) :
    (git_text_gather_stats text).cr = text.ptr.countP (fun b => decide (b.toNat = 0x0D)) ∧
    (git_text_gather_stats text).crlf = (List.range text.size).countP
      (fun i => decide (text.ptr[i]? = some 0x0D ∧ text.ptr[i + 1]? = some 0x0A)) ∧
    (git_text_gather_stats text).nul = text.ptr.countP (fun b => decide (b.toNat = 0x00)) ∧
    (git_text_gather_stats text).printable = text.ptr.countP
      (fun b => decide (b.toNat = 0x08 ∨ b.toNat = 0x09 ∨ b.toNat = 0x0C ∨ b.toNat = 0x1B ∨
        (0x20 ≤ b.toNat ∧ b.toNat ≠ 0x7F))) := by
  obtain ⟨_, hcr, _, hcrlf, hpr⟩ := gather_stats_other_fields text
  refine ⟨?_, ?_, gather_stats_nul text, ?_⟩
  · rw [hcr]
    exact gather_loop_bytes text (fun s => s.cr) (fun c => decide (c = 13)) rfl
      (gather_step_cr text)
  · rw [hcrlf, gather_loop_count text (fun s => s.crlf) _ (gather_step_crlf text),
      List.range_eq_range']
    simp only [Nat.zero_add]
    apply List.countP_congr
    intro i hi
    have hi2 : i < text.size := by
      rw [List.mem_range'_1] at hi
      omega
    simp only [decide_eq_true_eq]
    rw [show (13 : Nat) = (13 : UInt8).toNat from rfl, byte_at_eq_iff text i 13 hi2]
    constructor
    · rintro ⟨h1, h2, h3⟩
      exact ⟨h1, (byte_at_eq_iff text (i + 1) 10 h2).mp h3⟩
    · rintro ⟨h1, h2⟩
      have h3 : i + 1 < text.size := by
        by_contra hn
        unfold git_buf.size at hn
        rw [List.getElem?_eq_none (by omega)] at h2
        exact Option.noConfusion h2
      exact ⟨h1, h3, (byte_at_eq_iff text (i + 1) 10 h3).mpr h2⟩
  · rw [hpr]
    exact gather_loop_bytes text (fun s => s.printable)
      (fun c => decide (c = 8 ∨ c = 9 ∨ c = 12 ∨ c = 27 ∨ (32 ≤ c ∧ c ≠ 127))) rfl
      (gather_step_printable text)

/-- C11: the statistics gathered by `git_text_gather_stats` from any buffer have
`crlf ≤ cr`. -/
theorem gather_stats_crlf_le_cr (text : git_buf) :
    (git_text_gather_stats text).crlf ≤ (git_text_gather_stats text).cr := by
  obtain ⟨_, hcr, _, hcrlf, _⟩ := gather_stats_other_fields text
  rw [hcr, hcrlf, gather_loop_count text (fun s => s.crlf) _ (gather_step_crlf text),
    gather_loop_count text (fun s => s.cr) _ (gather_step_cr text)]
  apply Nat.add_le_add_left
  apply List.countP_mono_left
  intro i _ h
  simp only [decide_eq_true_eq] at h ⊢
  exact h.1

/-! ## The filter-chain executor -/

/-- C1 fails on a chain of two stages, the first appending a byte with status zero and the
second writing one byte with status one: `git_filters_apply` returns success with the
byte of the second stage in `dest`, while the pipeline result is the output of the first. No
buffer is out of memory, and the value `dst` held before the loop plays no part. -/
theorem git_filters_apply_cancel_after_success (dst_indet : Nat) :
    (git_filters_apply ⟨[], false⟩ ⟨[65], false⟩
        [append_stage 66 0, const_stage [88] 1] true dst_indet).ret = GIT_SUCCESS ∧
      (git_filters_apply ⟨[], false⟩ ⟨[65], false⟩
        [append_stage 66 0, const_stage [88] 1] true dst_indet).dest = ⟨[88], false⟩ ∧
      pipeline_result [append_stage 66 0, const_stage [88] 1] ⟨[65], false⟩
        = ⟨[65, 66], false⟩ ∧
      (git_filters_apply ⟨[], false⟩ ⟨[65], false⟩
        [append_stage 66 0, const_stage [88] 1] true dst_indet).dest ≠
        pipeline_result [append_stage 66 0, const_stage [88] 1] ⟨[65], false⟩ := by
  simp [git_filters_apply, git_buf.size, git_buf_grow, filters_loop, apply_state.dbuffer,
    apply_state.set_dbuffer, git_buf_clear, git_buf_oom, git_buf_swap, append_stage,
    const_stage, pipeline_result, GIT_SUCCESS]

/-- C2 fails on a chain of one stage that writes one byte and returns status one:
`git_filters_apply` returns success with that byte in `dest`, not the source; when the
stage writes nothing, `dest` is left empty. -/
theorem git_filters_apply_single_cancel (dst_indet : Nat) :
    (git_filters_apply ⟨[], false⟩ ⟨[65], false⟩
        [const_stage [88] 1] true dst_indet).ret = GIT_SUCCESS ∧
      (git_filters_apply ⟨[], false⟩ ⟨[65], false⟩
        [const_stage [88] 1] true dst_indet).dest.ptr = [88] ∧
      (git_filters_apply ⟨[], false⟩ ⟨[65], false⟩
        [const_stage [88] 1] true dst_indet).dest.ptr ≠ [65] ∧
      (git_filters_apply ⟨[], false⟩ ⟨[65], false⟩
        [const_stage [] 1] true dst_indet).dest.ptr = [] := by
  simp [git_filters_apply, git_buf.size, git_buf_grow, filters_loop, apply_state.dbuffer,
    apply_state.set_dbuffer, git_buf_clear, git_buf_oom, const_stage, GIT_SUCCESS]

/-- C3 fails on the empty chain when the unassigned `dst` happens to hold one: the swap is
skipped and `dest` keeps its previous content; with any other value in `dst`, here zero,
`dest` receives the source. -/
theorem git_filters_apply_empty_chain :
    (git_filters_apply ⟨[7], false⟩ ⟨[65], false⟩ [] true 1).ret = GIT_SUCCESS ∧
      (git_filters_apply ⟨[7], false⟩ ⟨[65], false⟩ [] true 1).dest.ptr = [7] ∧
      (git_filters_apply ⟨[7], false⟩ ⟨[65], false⟩ [] true 1).dest.ptr ≠ [65] ∧
      (git_filters_apply ⟨[7], false⟩ ⟨[65], false⟩ [] true 0).dest.ptr = [65] := by
  decide

/-- C4 fails when pre-sizing `dest` fails: the single stage would return zero and append a
byte, and `git_filters_apply` returns the out-of-memory error without calling it. -/
theorem git_filters_apply_single_success_oom :
    ((append_stage 66 0).apply (git_buf_clear ⟨[], false⟩) ⟨[65], false⟩).1 = 0 ∧
      (git_filters_apply ⟨[], false⟩ ⟨[65], false⟩ [append_stage 66 0] false 0).ret
        = GIT_ENOMEM ∧
      (git_filters_apply ⟨[], false⟩ ⟨[65], false⟩ [append_stage 66 0] false 0).ret
        ≠ GIT_SUCCESS ∧
      (git_filters_apply ⟨[], false⟩ ⟨[65], false⟩ [append_stage 66 0] false 0).calls = [] := by
  decide

/-- C4, as the code has it: for a non-empty source and a chain of one stage that returns
zero and writes `f source` to its destination, when pre-sizing `dest` succeeds and the stage
does not leave its destination out of memory, `git_filters_apply` returns success and `dest`
holds `f source`. The stage is called on the cleared `dest` and the source. -/
theorem git_filters_apply_single_success (dest source : git_buf) (filter : git_filter)
    (f : List UInt8 → List UInt8) (dst_indet : Nat)
    (hsrc : source.size ≠ 0)
    (hst : (filter.apply (git_buf_clear dest) source).1 = 0)
    (hout : (filter.apply (git_buf_clear dest) source).2.ptr = f source.ptr)
    (hoom : git_buf_oom (filter.apply (git_buf_clear dest) source).2 = false) :
    (git_filters_apply dest source [filter] true dst_indet).ret = GIT_SUCCESS ∧
      (git_filters_apply dest source [filter] true dst_indet).dest.ptr = f source.ptr := by
  simp [git_filters_apply, hsrc, git_buf_grow, filters_loop, apply_state.dbuffer,
    apply_state.set_dbuffer, hst, hoom, hout, git_buf_swap]

/-- Witness of C4 as amended: the stage appending the byte `B` to the source `A`. -/
theorem git_filters_apply_single_success_witness :
    (⟨[65], false⟩ : git_buf).size ≠ 0 ∧
      ((append_stage 66 0).apply (git_buf_clear ⟨[7], false⟩) ⟨[65], false⟩).1 = 0 ∧
      ((append_stage 66 0).apply (git_buf_clear ⟨[7], false⟩) ⟨[65], false⟩).2.ptr
        = [65] ++ [66] ∧
      git_buf_oom ((append_stage 66 0).apply (git_buf_clear ⟨[7], false⟩) ⟨[65], false⟩).2
        = false ∧
      (git_filters_apply ⟨[7], false⟩ ⟨[65], false⟩ [append_stage 66 0] true 0).ret
        = GIT_SUCCESS ∧
      (git_filters_apply ⟨[7], false⟩ ⟨[65], false⟩ [append_stage 66 0] true 0).dest.ptr
        = [65] ++ [66] :=
  ⟨by decide, rfl, rfl, rfl,
    git_filters_apply_single_success ⟨[7], false⟩ ⟨[65], false⟩ (append_stage 66 0)
      (fun l => l ++ [66]) 0 (by decide) rfl rfl rfl⟩

/-- C5: when the source buffer is empty, `git_filters_apply` returns success, `dest` is empty
afterwards, and no stage has been called, whatever the chain and the previous content of
`dest`. -/
theorem git_filters_apply_empty_source (dest source : git_buf) (filters : List git_filter)
    (alloc_ok : Bool) (dst_indet : Nat) (h : source.size = 0) :
    (git_filters_apply dest source filters alloc_ok dst_indet).ret = GIT_SUCCESS ∧
      (git_filters_apply dest source filters alloc_ok dst_indet).dest.ptr = [] ∧
      (git_filters_apply dest source filters alloc_ok dst_indet).dest.size = 0 ∧
      (git_filters_apply dest source filters alloc_ok dst_indet).calls = [] := by
  have e : git_filters_apply dest source filters alloc_ok dst_indet
      = ⟨GIT_SUCCESS, git_buf_clear dest, source, []⟩ := by
    unfold git_filters_apply
    simp only [h, if_true]
  rw [e]
  exact ⟨rfl, rfl, rfl, rfl⟩

/-- Witness of C5: an empty source, a `dest` holding three bytes and a chain of one stage. -/
theorem git_filters_apply_empty_source_witness :
    (⟨[], false⟩ : git_buf).size = 0 ∧
      (git_filters_apply ⟨[1, 2, 3], false⟩ ⟨[], false⟩ [append_stage 66 0] true 0).ret
        = GIT_SUCCESS ∧
      (git_filters_apply ⟨[1, 2, 3], false⟩ ⟨[], false⟩ [append_stage 66 0] true 0).dest.ptr
        = [] ∧
      (git_filters_apply ⟨[1, 2, 3], false⟩ ⟨[], false⟩ [append_stage 66 0] true 0).calls
        = [] :=
  have h := git_filters_apply_empty_source ⟨[1, 2, 3], false⟩ ⟨[], false⟩
    [append_stage 66 0] true 0 rfl
  ⟨rfl, h.1, h.2.1, h.2.2.2⟩

/-! ## Repository settings -/

/-- C16: with `loaded = true`, `load_repository_settings` returns success, looks nothing up
and leaves the repository as it is; and after any call that returned success a second call
returns success, looks nothing up and changes nothing, so that the two calls together make
at most the two lookups of one round. -/
theorem load_repository_settings_loaded (repo : git_repository) (cfg cfg2 : config_store) :
    (repo.filter_options.loaded = true →
      (load_repository_settings repo cfg).ret = GIT_SUCCESS ∧
      (load_repository_settings repo cfg).queries = [] ∧
      (load_repository_settings repo cfg).repo = repo) ∧
    ((load_repository_settings repo cfg).ret = GIT_SUCCESS →
      (load_repository_settings (load_repository_settings repo cfg).repo cfg2).ret
        = GIT_SUCCESS ∧
      (load_repository_settings (load_repository_settings repo cfg).repo cfg2).queries
        = [] ∧
      (load_repository_settings (load_repository_settings repo cfg).repo cfg2).repo
        = (load_repository_settings repo cfg).repo ∧
      ((load_repository_settings repo cfg).queries ++
        (load_repository_settings (load_repository_settings repo cfg).repo cfg2).queries).length
        ≤ 2) := by
  have hA : ∀ (r : git_repository) (c : config_store), r.filter_options.loaded = true →
      load_repository_settings r c = ⟨GIT_SUCCESS, r, []⟩ := by
    intro r c h
    unfold load_repository_settings
    rw [if_pos h]
  have hB : (load_repository_settings repo cfg).ret = GIT_SUCCESS →
      (load_repository_settings repo cfg).repo.filter_options.loaded = true := by
    unfold load_repository_settings
    simp only []
    split_ifs with h1 h2 h3 h4
    · intro _; exact h1
    · intro e; simp only [] at e; rw [e] at h2; exact absurd h2 (by decide)
    · intro e; simp only [] at e; rw [e] at h3; exact absurd h3.1 (by decide)
    · intro e; simp only [] at e; rw [e] at h4; exact absurd h4.1 (by decide)
    · intro _; rfl
  have hC : (load_repository_settings repo cfg).queries.length ≤ 2 := by
    unfold load_repository_settings
    simp only []
    split_ifs <;> simp
  refine ⟨fun h => ?_, fun h => ?_⟩
  · rw [hA repo cfg h]
    exact ⟨rfl, rfl, rfl⟩
  · rw [hA _ cfg2 (hB h)]
    refine ⟨rfl, rfl, rfl, ?_⟩
    simpa using hC

/-- Witness of C16: a loaded repository, and a first call on an unloaded one that finds
`core.eol` set and `core.auto_crlf` missing, followed by a call on a failing store. -/
theorem load_repository_settings_loaded_witness :
    (repo_loaded.filter_options.loaded = true ∧
      (load_repository_settings repo_loaded cfg_eol_crlf).queries = []) ∧
    ((load_repository_settings repo_fresh cfg_eol_crlf).ret = GIT_SUCCESS ∧
      (load_repository_settings
        (load_repository_settings repo_fresh cfg_eol_crlf).repo cfg_crlf_error).queries
        = []) :=
  ⟨⟨rfl, ((load_repository_settings_loaded repo_loaded cfg_eol_crlf cfg_eol_crlf).1 rfl).2.1⟩,
    ⟨by decide, ((load_repository_settings_loaded repo_fresh cfg_eol_crlf cfg_crlf_error).2
      (by decide)).2.1⟩⟩

/-- C17: with `loaded = false`: when the handle is obtained and each lookup yields a value
or the not-found signal, `load_repository_settings` returns success and sets `loaded`, each
policy being the value found or its default; when obtaining the handle fails, or a lookup
yields an error other than not-found, that error is returned and `loaded` stays false. -/
theorem load_repository_settings_unloaded (repo : git_repository) (cfg : config_store)
    (h : repo.filter_options.loaded = false) :
    (¬ cfg.weakptr_ret < GIT_SUCCESS → (∀ c, cfg.core_eol ≠ lookup_outcome.error c) →
      (∀ c, cfg.core_auto_crlf ≠ lookup_outcome.error c) →
      (load_repository_settings repo cfg).ret = GIT_SUCCESS ∧
      (load_repository_settings repo cfg).repo.filter_options.loaded = true ∧
      (load_repository_settings repo cfg).repo.filter_options.eol
        = cfg.core_eol.found_or GIT_EOL_DEFAULT ∧
      (load_repository_settings repo cfg).repo.filter_options.auto_crlf
        = cfg.core_auto_crlf.found_or GIT_AUTO_CRLF_DEFAULT) ∧
    (cfg.weakptr_ret < GIT_SUCCESS →
      (load_repository_settings repo cfg).ret = cfg.weakptr_ret ∧
      (load_repository_settings repo cfg).repo.filter_options.loaded = false) ∧
    (¬ cfg.weakptr_ret < GIT_SUCCESS → ∀ c, cfg.core_eol = lookup_outcome.error c →
      c < GIT_SUCCESS → c ≠ GIT_ENOTFOUND →
      (load_repository_settings repo cfg).ret = c ∧
      (load_repository_settings repo cfg).repo.filter_options.loaded = false) ∧
    (¬ cfg.weakptr_ret < GIT_SUCCESS → (∀ c, cfg.core_eol ≠ lookup_outcome.error c) →
      ∀ c, cfg.core_auto_crlf = lookup_outcome.error c →
      c < GIT_SUCCESS → c ≠ GIT_ENOTFOUND →
      (load_repository_settings repo cfg).ret = c ∧
      (load_repository_settings repo cfg).repo.filter_options.loaded = false) := by
  obtain ⟨w, e, a⟩ := cfg
  refine ⟨?_, ?_, ?_, ?_⟩
  · intro hw he ha
    unfold load_repository_settings
    simp only [h, Bool.false_eq_true, if_false]
    rw [if_neg hw]
    cases e with
    | error c => exact absurd rfl (he c)
    | value v =>
      cases a with
      | error c => exact absurd rfl (ha c)
      | value v2 =>
        simp [git_config_get_mapped, lookup_outcome.found_or, GIT_SUCCESS]
      | not_found =>
        simp [git_config_get_mapped, lookup_outcome.found_or, GIT_SUCCESS, GIT_ENOTFOUND,
          GIT_AUTO_CRLF_DEFAULT]
    | not_found =>
      cases a with
      | error c => exact absurd rfl (ha c)
      | value v2 =>
        simp [git_config_get_mapped, lookup_outcome.found_or, GIT_SUCCESS, GIT_ENOTFOUND,
          GIT_EOL_DEFAULT]
      | not_found =>
        simp [git_config_get_mapped, lookup_outcome.found_or, GIT_SUCCESS, GIT_ENOTFOUND,
          GIT_EOL_DEFAULT, GIT_AUTO_CRLF_DEFAULT]
  · intro hw
    unfold load_repository_settings
    simp only [h, Bool.false_eq_true, if_false]
    rw [if_pos hw]
    exact ⟨rfl, rfl⟩
  · intro hw c he hc hn
    simp only at he
    subst he
    unfold load_repository_settings
    simp only [h, Bool.false_eq_true, if_false]
    rw [if_neg hw]
    simp only [git_config_get_mapped]
    rw [if_pos ⟨hc, hn⟩]
    exact ⟨rfl, rfl⟩
  · intro hw he c ha hc hn
    simp only at ha
    subst ha
    unfold load_repository_settings
    simp only [h, Bool.false_eq_true, if_false]
    rw [if_neg hw]
    cases e with
    | error c2 => exact absurd rfl (he c2)
    | value v =>
      simp only [git_config_get_mapped]
      rw [if_neg (fun hh => absurd hh.1 (by decide)), if_pos ⟨hc, hn⟩]
      exact ⟨rfl, rfl⟩
    | not_found =>
      simp only [git_config_get_mapped]
      rw [if_neg (fun hh => hh.2 rfl), if_pos ⟨hc, hn⟩]
      exact ⟨rfl, rfl⟩

/-- Witness of C17 on an unloaded repository: a store with `core.eol = crlf` and no
`core.auto_crlf`, a store without handle, and stores failing on either key. -/
theorem load_repository_settings_unloaded_witness :
    ((load_repository_settings repo_fresh cfg_eol_crlf).ret = GIT_SUCCESS ∧
      (load_repository_settings repo_fresh cfg_eol_crlf).repo.filter_options
        = ⟨git_eol_t.GIT_EOL_CRLF, git_crlf_t.GIT_AUTO_CRLF_FALSE, true⟩) ∧
    ((load_repository_settings repo_fresh cfg_no_handle).ret = -1 ∧
      (load_repository_settings repo_fresh cfg_no_handle).repo.filter_options.loaded = false) ∧
    ((load_repository_settings repo_fresh cfg_eol_error).ret = -1 ∧
      (load_repository_settings repo_fresh cfg_eol_error).repo.filter_options.loaded = false) ∧
    ((load_repository_settings repo_fresh cfg_crlf_error).ret = -1 ∧
      (load_repository_settings repo_fresh cfg_crlf_error).repo.filter_options.loaded
        = false) := by
  have ha := (load_repository_settings_unloaded repo_fresh cfg_eol_crlf rfl).1
    (by decide) (fun c hc => by cases hc) (fun c hc => by cases hc)
  have hb := (load_repository_settings_unloaded repo_fresh cfg_no_handle rfl).2.1 (by decide)
  have hc := (load_repository_settings_unloaded repo_fresh cfg_eol_error rfl).2.2.1
    (by decide) (-1) rfl (by decide) (by decide)
  have hd := (load_repository_settings_unloaded repo_fresh cfg_crlf_error rfl).2.2.2
    (by decide) (fun c hc => by cases hc) (-1) rfl (by decide) (by decide)
  exact ⟨⟨ha.1, rfl⟩, hb, hc, hd⟩

/-! ## Chain construction -/

/-- C14: when the settings load succeeds and the mode is not `GIT_FILTER_TO_ODB`,
`git_filters_load` returns the not-implemented error and leaves the chain as it was. -/
theorem git_filters_load_worktree (filters : List git_filter) (repo : git_repository)
    (path : String) (mode : Int) (cfg : config_store)
    (add : List git_filter → git_repository → String → Int × List git_filter)
    (hload : ¬ (load_repository_settings repo cfg).ret < GIT_SUCCESS)
    (hmode : mode ≠ GIT_FILTER_TO_ODB) :
    (git_filters_load filters repo path mode cfg add).ret = GIT_ENOTIMPLEMENTED ∧
      (git_filters_load filters repo path mode cfg add).ret < GIT_SUCCESS ∧
      (git_filters_load filters repo path mode cfg add).filters = filters := by
  unfold git_filters_load
  simp only []
  rw [if_neg hload, if_neg hmode]
  have hneg : GIT_ENOTIMPLEMENTED < GIT_SUCCESS := by decide
  exact ⟨rfl, hneg, rfl⟩

/-- Witness of C14: mode zero on an unloaded repository with a chain of one stage. -/
theorem git_filters_load_worktree_witness :
    ¬ (load_repository_settings repo_fresh cfg_eol_crlf).ret < GIT_SUCCESS ∧
      (0 : Int) ≠ GIT_FILTER_TO_ODB ∧
      (git_filters_load [append_stage 66 0] repo_fresh "a.txt" 0 cfg_eol_crlf
        add_one_stage).ret = GIT_ENOTIMPLEMENTED ∧
      (git_filters_load [append_stage 66 0] repo_fresh "a.txt" 0 cfg_eol_crlf
        add_one_stage).filters.length = 1 :=
  have h := git_filters_load_worktree [append_stage 66 0] repo_fresh "a.txt" 0 cfg_eol_crlf
    add_one_stage (by decide) (by decide)
  ⟨by decide, by decide, h.1, congrArg List.length h.2.2⟩

/-- C15 fails on a chain that already holds one stage: the constructor appends one stage,
and `git_filters_load` returns two, the length of the chain, not the one stage appended. -/
theorem git_filters_load_counts_old_stages :
    (git_filters_load [append_stage 66 0] repo_fresh "a.txt" GIT_FILTER_TO_ODB cfg_eol_crlf
        add_one_stage).ret = 2 ∧
      (git_filters_load [append_stage 66 0] repo_fresh "a.txt" GIT_FILTER_TO_ODB cfg_eol_crlf
        add_one_stage).filters.length = 2 ∧
      [append_stage 66 0].length = 1 ∧
      (git_filters_load [append_stage 66 0] repo_fresh "a.txt" GIT_FILTER_TO_ODB cfg_eol_crlf
        add_one_stage).ret ≠
        ((git_filters_load [append_stage 66 0] repo_fresh "a.txt" GIT_FILTER_TO_ODB
          cfg_eol_crlf add_one_stage).filters.length : Int)
          - ([append_stage 66 0].length : Int) := by
  decide

/-- C15, as the code has it: when `git_filters_load` succeeds in the to-storage direction,
its return value is the length of the chain after the call; this is the number of stages
appended by the call when the chain was empty before. -/
theorem git_filters_load_returns_length (filters : List git_filter) (repo : git_repository)
    (path : String) (cfg : config_store)
    (add : List git_filter → git_repository → String → Int × List git_filter)
    (hok : ¬ (git_filters_load filters repo path GIT_FILTER_TO_ODB cfg add).ret
      < GIT_SUCCESS) :
    (git_filters_load filters repo path GIT_FILTER_TO_ODB cfg add).ret
        = ((git_filters_load filters repo path GIT_FILTER_TO_ODB cfg add).filters.length
          : Int) ∧
      (filters.length = 0 →
        (git_filters_load filters repo path GIT_FILTER_TO_ODB cfg add).ret
          = ((git_filters_load filters repo path GIT_FILTER_TO_ODB cfg add).filters.length
            : Int) - (filters.length : Int)) := by
  have h1 : (git_filters_load filters repo path GIT_FILTER_TO_ODB cfg add).ret
      = ((git_filters_load filters repo path GIT_FILTER_TO_ODB cfg add).filters.length
        : Int) := by
    revert hok
    unfold git_filters_load
    simp only []
    split_ifs with h1 h2
    · intro hok; exact absurd h1 hok
    · intro hok; exact absurd h2 hok
    · intro _; rfl
  refine ⟨h1, fun h0 => ?_⟩
  rw [h1, h0]
  simp

/-- Witness of C15 as amended: an empty chain, to which the constructor appends one
stage. -/
theorem git_filters_load_returns_length_witness :
    ¬ (git_filters_load [] repo_fresh "a.txt" GIT_FILTER_TO_ODB cfg_eol_crlf
        add_one_stage).ret < GIT_SUCCESS ∧
      (git_filters_load [] repo_fresh "a.txt" GIT_FILTER_TO_ODB cfg_eol_crlf
        add_one_stage).ret =
        ((git_filters_load [] repo_fresh "a.txt" GIT_FILTER_TO_ODB cfg_eol_crlf
          add_one_stage).filters.length : Int) ∧
      (git_filters_load [] repo_fresh "a.txt" GIT_FILTER_TO_ODB cfg_eol_crlf
        add_one_stage).filters.length = 1 :=
  have h := git_filters_load_returns_length [] repo_fresh "a.txt" cfg_eol_crlf
    add_one_stage (by decide)
  ⟨by decide, h.1, by decide⟩


/-! ## Lemmas on the executor loop -/

/-- The loop over a chain is one iteration followed, unless that iteration left by the
out-of-memory return, by the loop over the rest. -/
theorem filters_loop_cons (f : git_filter) (rest : List git_filter) (i : Nat)
    (s : apply_state) :
    filters_loop (f :: rest) i s =
      if (filters_loop [f] i s).1 then filters_loop [f] i s
      else filters_loop rest (i + 1) (filters_loop [f] i s).2 := by
  rw [filters_loop.eq_2 i s f rest, filters_loop.eq_2 i s f []]
  simp only [filters_loop.eq_1]
  split_ifs <;> first | rfl | simp_all

/-- One iteration with `src = 0`: the stage reads `source` and writes `dest`. -/
theorem filters_loop_step_src0 (f : git_filter) (i : Nat) (s : apply_state) (h : s.src = 0) :
    filters_loop [f] i s =
      (git_buf_oom (f.apply (git_buf_clear s.dest) s.source).2,
        ⟨s.source, (f.apply (git_buf_clear s.dest) s.source).2,
          if (f.apply (git_buf_clear s.dest) s.source).1 = 0 then 1 else 0, 1,
          s.calls ++ [(i, s.source)]⟩) := by
  obtain ⟨A, B, src, dst, c⟩ := s
  simp only at h
  subst h
  simp only [filters_loop, apply_state.dbuffer, apply_state.set_dbuffer]
  simp
  split_ifs <;> simp_all

/-- One iteration with `src = 1`: the stage reads `dest` and writes `source`. -/
theorem filters_loop_step_src1 (f : git_filter) (i : Nat) (s : apply_state) (h : s.src = 1) :
    filters_loop [f] i s =
      (git_buf_oom (f.apply (git_buf_clear s.source) s.dest).2,
        ⟨(f.apply (git_buf_clear s.source) s.dest).2, s.dest,
          if (f.apply (git_buf_clear s.source) s.dest).1 = 0 then 0 else 1, 0,
          s.calls ++ [(i, s.dest)]⟩) := by
  obtain ⟨A, B, src, dst, c⟩ := s
  simp only at h
  subst h
  simp only [filters_loop, apply_state.dbuffer, apply_state.set_dbuffer]
  simp
  split_ifs <;> simp_all


/-- The loop over two chains put end to end. -/
theorem filters_loop_append (pre rest : List git_filter) :
    ∀ (i : Nat) (s : apply_state), filters_loop (pre ++ rest) i s =
      if (filters_loop pre i s).1 then filters_loop pre i s
      else filters_loop rest (i + pre.length) (filters_loop pre i s).2 := by
  induction pre with
  | nil => intro i s; simp [filters_loop]
  | cons f pre ih =>
    intro i s
    rw [List.cons_append, filters_loop_cons f (pre ++ rest), filters_loop_cons f pre, ih]
    by_cases h1 : (filters_loop [f] i s).1 = true
    · simp [h1]
    · simp only [if_neg h1, List.length_cons]
      rw [show i + 1 + pre.length = i + (pre.length + 1) by omega]

/-- The flag of one iteration is the out-of-memory state of what the stage returned, and
the iteration leaves `src` and `dst` below two. -/
theorem filters_loop_step_facts (f : git_filter) (i : Nat) (s : apply_state)
    (h : s.src < 2) :
    (filters_loop [f] i s).1 = git_buf_oom (f.apply
      (git_buf_clear (s.dbuffer ((s.src + 1) % 2))) (s.dbuffer s.src)).2 ∧
    (filters_loop [f] i s).2.src < 2 ∧
    (filters_loop [f] i s).2.dst < 2 ∧
    (filters_loop [f] i s).2.dbuffer (filters_loop [f] i s).2.dst = (f.apply
      (git_buf_clear (s.dbuffer ((s.src + 1) % 2))) (s.dbuffer s.src)).2 ∧
    (filters_loop [f] i s).2.dbuffer (filters_loop [f] i s).2.src =
      (if (f.apply (git_buf_clear (s.dbuffer ((s.src + 1) % 2))) (s.dbuffer s.src)).1 = 0
        then (f.apply (git_buf_clear (s.dbuffer ((s.src + 1) % 2))) (s.dbuffer s.src)).2
        else s.dbuffer s.src) ∧
    (filters_loop [f] i s).2.dbuffer (1 - (filters_loop [f] i s).2.src) =
      (if (f.apply (git_buf_clear (s.dbuffer ((s.src + 1) % 2))) (s.dbuffer s.src)).1 = 0
        then s.dbuffer s.src
        else (f.apply (git_buf_clear (s.dbuffer ((s.src + 1) % 2))) (s.dbuffer s.src)).2) ∧
    (filters_loop [f] i s).2.calls = s.calls ++ [(i, s.dbuffer s.src)] := by
  have h01 : s.src = 0 ∨ s.src = 1 := by omega
  rcases h01 with h0 | h1
  · rw [filters_loop_step_src0 f i s h0, h0]
    by_cases hz : (f.apply (git_buf_clear s.dest) s.source).1 = 0 <;>
      simp [apply_state.dbuffer, hz]
  · rw [filters_loop_step_src1 f i s h1, h1]
    by_cases hz : (f.apply (git_buf_clear s.source) s.dest).1 = 0 <;>
      simp [apply_state.dbuffer, hz]


/-- The pipeline result of a chain, by its first stage. -/
theorem pipeline_result_cons (f : git_filter) (rest : List git_filter) (cur : git_buf) :
    pipeline_result (f :: rest) cur = pipeline_result rest
      (if (f.apply ⟨[], false⟩ cur).1 = 0 then (f.apply ⟨[], false⟩ cur).2 else cur) := by
  rw [pipeline_result]
  simp only [git_buf_clear]
  split_ifs <;> rfl

/-- The pipeline result of two chains put end to end. -/
theorem pipeline_result_append (pre rest : List git_filter) :
    ∀ cur : git_buf, pipeline_result (pre ++ rest) cur
      = pipeline_result rest (pipeline_result pre cur) := by
  induction pre with
  | nil => intro cur; rfl
  | cons f pre ih =>
    intro cur
    rw [List.cons_append, pipeline_result_cons, pipeline_result_cons, ih]

/-- Clearing a buffer that is not out of memory gives the empty buffer. -/
theorem git_buf_clear_of_not_oom (b : git_buf) (h : git_buf_oom b = false) :
    git_buf_clear b = ⟨[], false⟩ := by
  unfold git_buf_oom at h
  unfold git_buf_clear
  rw [h]

/-- One iteration from a state whose two buffers are not out of memory, for a stage that
does not leave its destination out of memory. -/
theorem filters_loop_step_run (f : git_filter) (i : Nat) (s : apply_state)
    (h : s.src < 2) (hc : git_buf_oom (s.dbuffer s.src) = false)
    (ho : git_buf_oom (s.dbuffer (1 - s.src)) = false)
    (hf : git_buf_oom (f.apply ⟨[], false⟩ (s.dbuffer s.src)).2 = false) :
    (filters_loop [f] i s).1 = false ∧
    (filters_loop [f] i s).2.src < 2 ∧
    git_buf_oom ((filters_loop [f] i s).2.dbuffer (filters_loop [f] i s).2.src) = false ∧
    git_buf_oom ((filters_loop [f] i s).2.dbuffer (1 - (filters_loop [f] i s).2.src))
      = false ∧
    (filters_loop [f] i s).2.dst < 2 ∧
    (filters_loop [f] i s).2.dbuffer (filters_loop [f] i s).2.dst
      = (f.apply ⟨[], false⟩ (s.dbuffer s.src)).2 ∧
    (filters_loop [f] i s).2.dbuffer (filters_loop [f] i s).2.src =
      (if (f.apply ⟨[], false⟩ (s.dbuffer s.src)).1 = 0
        then (f.apply ⟨[], false⟩ (s.dbuffer s.src)).2 else s.dbuffer s.src) ∧
    (filters_loop [f] i s).2.calls = s.calls ++ [(i, s.dbuffer s.src)] := by
  have hd : (s.src + 1) % 2 = 1 - s.src := by omega
  have hcl : git_buf_clear (s.dbuffer ((s.src + 1) % 2)) = ⟨[], false⟩ := by
    rw [hd]; exact git_buf_clear_of_not_oom _ ho
  obtain ⟨h1, h2, h3, h4, h5, h6, h7⟩ := filters_loop_step_facts f i s h
  rw [hcl] at h1 h4 h5 h6
  refine ⟨by rw [h1, hf], h2, ?_, ?_, h3, h4, h5, h7⟩
  · rw [h5]; split_ifs
    · exact hf
    · exact hc
  · rw [h6]; split_ifs
    · exact hc
    · exact hf

/-- The loop from a state whose two buffers are not out of memory, when no stage leaves its
destination out of memory on the input the pipeline gives it: the loop runs to its end, the
buffer at `src` holds the pipeline result, and the log grows by one entry per stage, each
with the pipeline result of the stages before it. -/
theorem filters_loop_run (fs : List git_filter) :
    ∀ (i : Nat) (s : apply_state), s.src < 2 → git_buf_oom (s.dbuffer s.src) = false →
      git_buf_oom (s.dbuffer (1 - s.src)) = false →
      (∀ (k : Nat) (f : git_filter), fs[k]? = some f → git_buf_oom (f.apply ⟨[], false⟩
        (pipeline_result (fs.take k) (s.dbuffer s.src))).2 = false) →
      (filters_loop fs i s).1 = false ∧
      (filters_loop fs i s).2.src < 2 ∧
      git_buf_oom ((filters_loop fs i s).2.dbuffer (filters_loop fs i s).2.src) = false ∧
      git_buf_oom ((filters_loop fs i s).2.dbuffer (1 - (filters_loop fs i s).2.src))
        = false ∧
      (filters_loop fs i s).2.dbuffer (filters_loop fs i s).2.src
        = pipeline_result fs (s.dbuffer s.src) ∧
      (filters_loop fs i s).2.calls = s.calls ++ (List.range fs.length).map
        (fun k => (i + k, pipeline_result (fs.take k) (s.dbuffer s.src))) := by
  induction fs with
  | nil =>
    intro i s h hc ho _
    simp [filters_loop, h, hc, ho, pipeline_result]
  | cons f rest ih =>
    intro i s h hc ho hfs
    have hf : git_buf_oom (f.apply ⟨[], false⟩ (s.dbuffer s.src)).2 = false :=
      hfs 0 f (List.getElem?_cons_zero)
    obtain ⟨h1, h2, h3, h4, _, _, h7, h8⟩ := filters_loop_step_run f i s h hc ho hf
    have hrest : ∀ (k : Nat) (g : git_filter), rest[k]? = some g → git_buf_oom (g.apply ⟨[], false⟩
        (pipeline_result (rest.take k) ((filters_loop [f] i s).2.dbuffer
          (filters_loop [f] i s).2.src))).2 = false := by
      intro k g hk
      have hg := hfs (k + 1) g (by rw [List.getElem?_cons_succ]; exact hk)
      rw [List.take_succ_cons, pipeline_result_cons] at hg
      rw [h7]
      exact hg
    obtain ⟨k1, k2, k3, k4, k5, k6⟩ := ih (i + 1) (filters_loop [f] i s).2 h2 h3 h4 hrest
    rw [filters_loop_cons, h1]
    simp only [Bool.false_eq_true, if_false]
    refine ⟨k1, k2, k3, k4, ?_, ?_⟩
    · rw [k5, h7, pipeline_result_cons]
    · rw [k6, h8, h7, List.length_cons, List.range_succ_eq_map, List.map_cons, List.map_map,
        List.append_assoc]
      simp only [List.singleton_append, List.take_zero, pipeline_result, Nat.add_zero]
      congr 2
      apply List.map_congr_left
      intro k _
      simp only [Function.comp, List.take_succ_cons, pipeline_result_cons]
      rw [show i + 1 + k = i + (k + 1) by omega]


/-- The indices logged by the loop: `src` stays below two, and a loop that runs to its end
logs each of its stages once, in order. -/
theorem filters_loop_log (fs : List git_filter) :
    ∀ (i : Nat) (s : apply_state), s.src < 2 →
      (filters_loop fs i s).2.src < 2 ∧
      ((filters_loop fs i s).1 = false →
        (filters_loop fs i s).2.calls.map Prod.fst
          = s.calls.map Prod.fst ++ List.range' i fs.length) := by
  induction fs with
  | nil => intro i s h; simp [filters_loop, h]
  | cons f rest ih =>
    intro i s h
    obtain ⟨_, h2, _, _, _, _, h7⟩ := filters_loop_step_facts f i s h
    obtain ⟨k1, k2⟩ := ih (i + 1) (filters_loop [f] i s).2 h2
    rw [filters_loop_cons]
    by_cases hb : (filters_loop [f] i s).1 = true
    · rw [if_pos hb]
      exact ⟨h2, fun hn => by rw [hb] at hn; exact absurd hn (by decide)⟩
    · rw [if_neg hb]
      refine ⟨k1, fun hn => ?_⟩
      rw [k2 hn, h7, List.length_cons, List.range'_succ]
      simp

/-- With a non-empty source and a successful pre-sizing, `git_filters_apply` is its loop
followed by the closing test on `dst`. -/
theorem git_filters_apply_eq (dest source : git_buf) (filters : List git_filter)
    (dst_indet : Nat) (hsrc : source.size ≠ 0) :
    git_filters_apply dest source filters true dst_indet =
      if (filters_loop filters 0 ⟨source, dest, 0, dst_indet, []⟩).1 then
        ⟨GIT_ENOMEM, (filters_loop filters 0 ⟨source, dest, 0, dst_indet, []⟩).2.dest,
          (filters_loop filters 0 ⟨source, dest, 0, dst_indet, []⟩).2.source,
          (filters_loop filters 0 ⟨source, dest, 0, dst_indet, []⟩).2.calls⟩
      else if (filters_loop filters 0 ⟨source, dest, 0, dst_indet, []⟩).2.dst ≠ 1 then
        ⟨GIT_SUCCESS, (filters_loop filters 0 ⟨source, dest, 0, dst_indet, []⟩).2.source,
          (filters_loop filters 0 ⟨source, dest, 0, dst_indet, []⟩).2.dest,
          (filters_loop filters 0 ⟨source, dest, 0, dst_indet, []⟩).2.calls⟩
      else
        ⟨GIT_SUCCESS, (filters_loop filters 0 ⟨source, dest, 0, dst_indet, []⟩).2.dest,
          (filters_loop filters 0 ⟨source, dest, 0, dst_indet, []⟩).2.source,
          (filters_loop filters 0 ⟨source, dest, 0, dst_indet, []⟩).2.calls⟩ := by
  unfold git_filters_apply
  simp only [if_neg hsrc, git_buf_grow, git_buf_swap, if_true]
  rw [if_neg (by decide)]

/-- A chain ending in the stage `f`, run without any out-of-memory condition (no stage leaves
its destination out of memory on the input the pipeline gives it): the call returns success
and `dest` holds what `f` wrote, computed from the pipeline result of the stages before
it. -/
theorem git_filters_apply_snoc (dest source : git_buf) (pre : List git_filter)
    (f : git_filter) (dst_indet : Nat) (hsrc : source.size ≠ 0)
    (hs : git_buf_oom source = false) (hd : git_buf_oom dest = false)
    (hno : ∀ (k : Nat) (g : git_filter), (pre ++ [f])[k]? = some g →
      git_buf_oom (g.apply ⟨[], false⟩ (pipeline_result ((pre ++ [f]).take k) source)).2
        = false) :
    (git_filters_apply dest source (pre ++ [f]) true dst_indet).ret = GIT_SUCCESS ∧
      (git_filters_apply dest source (pre ++ [f]) true dst_indet).dest
        = (f.apply ⟨[], false⟩ (pipeline_result pre source)).2 := by
  have hpre : ∀ (k : Nat) (g : git_filter), pre[k]? = some g → git_buf_oom (g.apply ⟨[], false⟩
      (pipeline_result (pre.take k) source)).2 = false := by
    intro k g hk
    have hlt : k < pre.length := by
      by_contra hn
      rw [List.getElem?_eq_none (by omega)] at hk
      exact Option.noConfusion hk
    have hg := hno k g (by rw [List.getElem?_append_left hlt]; exact hk)
    rw [List.take_append_of_le_length (by omega)] at hg
    exact hg
  obtain ⟨h1, h2, h3, h4, h5, _⟩ := filters_loop_run pre 0
    ⟨source, dest, 0, dst_indet, []⟩ (Nat.zero_lt_two) hs hd hpre
  have hf : git_buf_oom (f.apply ⟨[], false⟩
      ((filters_loop pre 0 ⟨source, dest, 0, dst_indet, []⟩).2.dbuffer
        (filters_loop pre 0 ⟨source, dest, 0, dst_indet, []⟩).2.src)).2 = false := by
    have hg := hno pre.length f (by simp)
    rw [List.take_left] at hg
    rw [h5]
    exact hg
  obtain ⟨k1, _, _, _, k5, k6, _, _⟩ := filters_loop_step_run f pre.length
    (filters_loop pre 0 ⟨source, dest, 0, dst_indet, []⟩).2 h2 h3 h4 hf
  rw [h5] at k6
  simp only [apply_state.dbuffer, if_true] at k6
  have hl : filters_loop (pre ++ [f]) 0 ⟨source, dest, 0, dst_indet, []⟩
      = filters_loop [f] pre.length
        (filters_loop pre 0 ⟨source, dest, 0, dst_indet, []⟩).2 := by
    rw [filters_loop_append, h1]
    simp only [Bool.false_eq_true, if_false, Nat.zero_add]
  rw [git_filters_apply_eq dest source (pre ++ [f]) dst_indet hsrc, hl, k1]
  simp only [Bool.false_eq_true, if_false]
  rw [← k6]
  have h01 : (filters_loop [f] pre.length
      (filters_loop pre 0 ⟨source, dest, 0, dst_indet, []⟩).2).2.dst = 0 ∨
      (filters_loop [f] pre.length
      (filters_loop pre 0 ⟨source, dest, 0, dst_indet, []⟩).2).2.dst = 1 := by omega
  rcases h01 with h0 | h1'
  · rw [if_pos (by omega)]
    simp [apply_state.dbuffer, h0]
  · rw [if_neg (by omega)]
    simp [apply_state.dbuffer, h1']


/-! ## The executor on whole chains -/

/-- C12: when pre-sizing `dest` succeeds, the two buffers are not out of memory on entry and
in this run no stage leaves its destination out of memory (each stage, on the input the
pipeline gives it), `git_filters_apply` returns success for every chain and every source,
whatever statuses the stages return. -/
theorem git_filters_apply_absorbs_status (dest source : git_buf)
    (filters : List git_filter) (dst_indet : Nat)
    (hs : git_buf_oom source = false) (hd : git_buf_oom dest = false)
    (hno : ∀ (k : Nat) (f : git_filter), filters[k]? = some f →
      git_buf_oom (f.apply ⟨[], false⟩ (pipeline_result (filters.take k) source)).2
        = false) :
    (git_filters_apply dest source filters true dst_indet).ret = GIT_SUCCESS := by
  by_cases hsrc : source.size = 0
  · unfold git_filters_apply
    simp only [hsrc, if_true]
  · obtain ⟨h1, _⟩ := filters_loop_run filters 0 ⟨source, dest, 0, dst_indet, []⟩
      Nat.zero_lt_two hs hd hno
    rw [git_filters_apply_eq dest source filters dst_indet hsrc, h1]
    simp only [Bool.false_eq_true, if_false]
    split_ifs <;> rfl

/-- Witness of C12: a chain of three stages with the statuses zero, one and minus five, two
of which would leave their destination out of memory on a longer input. -/
theorem git_filters_apply_absorbs_status_witness :
    git_buf_oom ⟨[65], false⟩ = false ∧ git_buf_oom ⟨[], false⟩ = false ∧
      git_buf_oom ((picky_stage 66 0).apply ⟨[], false⟩ ⟨[1, 2, 3, 4, 5, 6], false⟩).2
        = true ∧
      (git_filters_apply ⟨[], false⟩ ⟨[65], false⟩
        [picky_stage 66 0, const_stage [88] 1, picky_stage 67 (-5)] true 0).ret
        = GIT_SUCCESS :=
  have hno : ∀ (k : Nat) (f : git_filter),
      [picky_stage 66 0, const_stage [88] 1, picky_stage 67 (-5)][k]? = some f →
      git_buf_oom (f.apply ⟨[], false⟩ (pipeline_result
        ([picky_stage 66 0, const_stage [88] 1, picky_stage 67 (-5)].take k)
        ⟨[65], false⟩)).2 = false := by
    intro k f hk
    rcases k with _ | _ | _ | k
    · simp at hk; subst hk; rfl
    · simp at hk; subst hk; rfl
    · simp at hk; subst hk; rfl
    · simp at hk
  ⟨rfl, rfl, rfl, git_filters_apply_absorbs_status ⟨[], false⟩ ⟨[65], false⟩
    [picky_stage 66 0, const_stage [88] 1, picky_stage 67 (-5)] 0 rfl rfl hno⟩

/-- C13: for a non-empty source, when pre-sizing `dest` fails `git_filters_apply` returns
the out-of-memory error and no stage has been called; and when the stages before `f` ran
to the state `s1` and `f`, called from there, leaves its destination out of memory,
`git_filters_apply` returns the out-of-memory error and the stages called are those up to
`f`, once each and in order, none after it, whatever status `f` returned. -/
theorem git_filters_apply_oom (dest source : git_buf) (filters pre post : List git_filter)
    (f : git_filter) (dst_indet : Nat) (s1 : apply_state) (hsrc : source.size ≠ 0) :
    ((git_filters_apply dest source filters false dst_indet).ret = GIT_ENOMEM ∧
      (git_filters_apply dest source filters false dst_indet).calls = []) ∧
    (filters_loop pre 0 ⟨source, dest, 0, dst_indet, []⟩ = (false, s1) →
      git_buf_oom (f.apply (git_buf_clear (s1.dbuffer ((s1.src + 1) % 2)))
        (s1.dbuffer s1.src)).2 = true →
      (git_filters_apply dest source (pre ++ f :: post) true dst_indet).ret = GIT_ENOMEM ∧
      (git_filters_apply dest source (pre ++ f :: post) true dst_indet).calls.map Prod.fst
        = List.range (pre.length + 1)) := by
  constructor
  · unfold git_filters_apply
    simp only [if_neg hsrc, git_buf_grow, Bool.false_eq_true, if_false]
    rw [if_pos (show (-1 : Int) < 0 by decide)]
    exact ⟨rfl, rfl⟩
  · intro hrun hoom
    obtain ⟨hlt, hlog⟩ := filters_loop_log pre 0 ⟨source, dest, 0, dst_indet, []⟩
      Nat.zero_lt_two
    rw [hrun] at hlt hlog
    simp only at hlt
    have hcalls := hlog rfl
    obtain ⟨k1, _, _, _, _, _, k7⟩ := filters_loop_step_facts f pre.length s1 hlt
    rw [hoom] at k1
    have hl : filters_loop (pre ++ f :: post) 0 ⟨source, dest, 0, dst_indet, []⟩
        = filters_loop [f] pre.length s1 := by
      rw [filters_loop_append, hrun]
      simp only [Bool.false_eq_true, if_false, Nat.zero_add]
      rw [filters_loop_cons, if_pos k1]
    rw [git_filters_apply_eq dest source (pre ++ f :: post) dst_indet hsrc, hl, if_pos k1]
    refine ⟨rfl, ?_⟩
    simp only [k7, List.map_append, hcalls, List.map_cons, List.map_nil, List.nil_append]
    rw [List.range_succ, List.range_eq_range']

/-- Witness of C13: after a stage that appends a byte, a stage that leaves its destination
out of memory with status zero, followed by one more stage. -/
theorem git_filters_apply_oom_witness :
    (⟨[65], false⟩ : git_buf).size ≠ 0 ∧
      (git_filters_apply ⟨[], false⟩ ⟨[65], false⟩ [append_stage 66 0] false 0).ret
        = GIT_ENOMEM ∧
      (git_filters_apply ⟨[], false⟩ ⟨[65], false⟩ [append_stage 66 0] false 0).calls
        = [] ∧
      (git_filters_apply ⟨[], false⟩ ⟨[65], false⟩
        ([append_stage 66 0] ++ oom_stage 0 :: [const_stage [88] 0]) true 0).ret
        = GIT_ENOMEM ∧
      (git_filters_apply ⟨[], false⟩ ⟨[65], false⟩
        ([append_stage 66 0] ++ oom_stage 0 :: [const_stage [88] 0]) true 0).calls.map
          Prod.fst = [0, 1] :=
  have h := git_filters_apply_oom ⟨[], false⟩ ⟨[65], false⟩ [append_stage 66 0]
    [append_stage 66 0] [const_stage [88] 0] (oom_stage 0) 0
    ⟨⟨[65], false⟩, ⟨[65, 66], false⟩, 1, 1, [(0, ⟨[65], false⟩)]⟩ (by decide)
  have h2 := h.2 rfl rfl
  ⟨by decide, h.1.1, h.1.2, h2.1, h2.2⟩


/-- The log of a run without any out-of-memory condition (no stage leaves its destination
out of memory on the input the pipeline gives it): one entry per stage, in chain order,
holding the pipeline result of the stages before it. -/
theorem git_filters_apply_log (dest source : git_buf) (filters : List git_filter)
    (dst_indet : Nat) (hsrc : source.size ≠ 0)
    (hs : git_buf_oom source = false) (hd : git_buf_oom dest = false)
    (hno : ∀ (k : Nat) (f : git_filter), filters[k]? = some f →
      git_buf_oom (f.apply ⟨[], false⟩ (pipeline_result (filters.take k) source)).2
        = false) :
    (git_filters_apply dest source filters true dst_indet).calls =
      (List.range filters.length).map
        (fun k => (k, pipeline_result (filters.take k) source)) := by
  obtain ⟨h1, _, _, _, _, h6⟩ := filters_loop_run filters 0
    ⟨source, dest, 0, dst_indet, []⟩ Nat.zero_lt_two hs hd hno
  rw [git_filters_apply_eq dest source filters dst_indet hsrc, h1]
  simp only [Bool.false_eq_true, if_false]
  have h6b : (filters_loop filters 0 ⟨source, dest, 0, dst_indet, []⟩).2.calls =
      (List.range filters.length).map
        (fun k => (k, pipeline_result (filters.take k) source)) := by
    rw [h6]
    simp [apply_state.dbuffer]
  split_ifs <;> exact h6b

/-- C18: for a non-empty source and a run without any out-of-memory condition (pre-sizing
succeeds, the buffers are not out of memory on entry, and no stage leaves its destination
out of memory on the input the pipeline gives it), `git_filters_apply` calls each stage
once, in chain order; the input of the stage at position `k` is the pipeline result of the stages before it, that is the output of the
latest earlier stage that returned zero, or the source; and the stage after one that
returned a non-zero status is given the same input as that one. -/
theorem git_filters_apply_calls (dest source : git_buf) (filters : List git_filter)
    (dst_indet : Nat) (hsrc : source.size ≠ 0)
    (hs : git_buf_oom source = false) (hd : git_buf_oom dest = false)
    (hno : ∀ (k : Nat) (f : git_filter), filters[k]? = some f →
      git_buf_oom (f.apply ⟨[], false⟩ (pipeline_result (filters.take k) source)).2
        = false) :
    (git_filters_apply dest source filters true dst_indet).calls.map Prod.fst
        = List.range filters.length ∧
      (∀ k, k < filters.length →
        (git_filters_apply dest source filters true dst_indet).calls[k]?
          = some (k, pipeline_result (filters.take k) source)) ∧
      (∀ k f x, k + 1 < filters.length → filters[k]? = some f →
        (git_filters_apply dest source filters true dst_indet).calls[k]? = some (k, x) →
        (f.apply ⟨[], false⟩ x).1 ≠ 0 →
        (git_filters_apply dest source filters true dst_indet).calls[k + 1]?
          = some (k + 1, x)) := by
  have hlog := git_filters_apply_log dest source filters dst_indet hsrc hs hd hno
  have hget : ∀ k, k < filters.length →
      (git_filters_apply dest source filters true dst_indet).calls[k]?
        = some (k, pipeline_result (filters.take k) source) := by
    intro k hk
    rw [hlog, List.getElem?_map, List.getElem?_range hk]
    rfl
  refine ⟨?_, hget, ?_⟩
  · rw [hlog, List.map_map]
    exact List.map_id _
  · intro k f x hk hf hx hst
    rw [hget k (by omega)] at hx
    have hx2 : pipeline_result (filters.take k) source = x := by
      have := Option.some.inj hx
      exact (Prod.mk.inj this).2
    rw [hget (k + 1) hk, List.take_succ, hf, pipeline_result_append, hx2]
    simp only [Option.toList]
    rw [pipeline_result_cons, if_neg hst]
    rfl

/-- Witness of C18: a stage that cancels, then one that appends a byte, then one that
writes a fixed byte; the second is given the source again, the third the output of the
second. The second stage would leave its destination out of memory on a longer input. -/
theorem git_filters_apply_calls_witness :
    (git_filters_apply ⟨[], false⟩ ⟨[65], false⟩
        [const_stage [88] 1, picky_stage 66 0, const_stage [89] 0] true 0).calls
      = [(0, ⟨[65], false⟩), (1, ⟨[65], false⟩), (2, ⟨[65, 66], false⟩)] ∧
    (git_filters_apply ⟨[], false⟩ ⟨[65], false⟩
        [const_stage [88] 1, picky_stage 66 0, const_stage [89] 0] true 0).calls[1]?
      = some (1, ⟨[65], false⟩) :=
  have hno : ∀ (k : Nat) (f : git_filter),
      [const_stage [88] 1, picky_stage 66 0, const_stage [89] 0][k]? = some f →
      git_buf_oom (f.apply ⟨[], false⟩ (pipeline_result
        ([const_stage [88] 1, picky_stage 66 0, const_stage [89] 0].take k)
        ⟨[65], false⟩)).2 = false := by
    intro k f hk
    rcases k with _ | _ | _ | k
    · simp at hk; subst hk; rfl
    · simp at hk; subst hk; rfl
    · simp at hk; subst hk; rfl
    · simp at hk
  have h := git_filters_apply_calls ⟨[], false⟩ ⟨[65], false⟩
    [const_stage [88] 1, picky_stage 66 0, const_stage [89] 0] 0 (by decide) rfl rfl hno
  ⟨by decide, h.2.2 0 (const_stage [88] 1) ⟨[65], false⟩ (by decide) rfl (h.2.1 0 (by decide))
    (by decide)⟩

/-- C19: for a non-empty source and a chain whose last stage `f` returns zero, run without
any out-of-memory condition (pre-sizing succeeds, the buffers are not out of memory on
entry, and no stage leaves its destination out of memory on the input the pipeline gives
it), `git_filters_apply` returns success and `dest` holds the
pipeline result, which is the output of `f` computed from the pipeline result of the
stages before it, whatever statuses those returned. -/
theorem git_filters_apply_last_success (dest source : git_buf) (pre : List git_filter)
    (f : git_filter) (dst_indet : Nat) (hsrc : source.size ≠ 0)
    (hs : git_buf_oom source = false) (hd : git_buf_oom dest = false)
    (hno : ∀ (k : Nat) (g : git_filter), (pre ++ [f])[k]? = some g →
      git_buf_oom (g.apply ⟨[], false⟩ (pipeline_result ((pre ++ [f]).take k) source)).2
        = false)
    (hlast : (f.apply ⟨[], false⟩ (pipeline_result pre source)).1 = 0) :
    (git_filters_apply dest source (pre ++ [f]) true dst_indet).ret = GIT_SUCCESS ∧
      (git_filters_apply dest source (pre ++ [f]) true dst_indet).dest
        = pipeline_result (pre ++ [f]) source ∧
      pipeline_result (pre ++ [f]) source
        = (f.apply ⟨[], false⟩ (pipeline_result pre source)).2 := by
  obtain ⟨h1, h2⟩ := git_filters_apply_snoc dest source pre f dst_indet hsrc hs hd hno
  have hp : pipeline_result (pre ++ [f]) source
      = (f.apply ⟨[], false⟩ (pipeline_result pre source)).2 := by
    rw [pipeline_result_append, pipeline_result_cons, if_pos hlast]
    rfl
  exact ⟨h1, by rw [h2, hp], hp⟩

/-- Witness of C19: a cancelling stage, a succeeding one, a cancelling one, and a last
stage that appends a byte with status zero and would leave its destination out of memory
on a longer input. -/
theorem git_filters_apply_last_success_witness :
    (git_filters_apply ⟨[7], false⟩ ⟨[65], false⟩
        ([const_stage [88] 1, append_stage 66 0, const_stage [89] 2] ++ [picky_stage 67 0])
        true 0).ret = GIT_SUCCESS ∧
    (git_filters_apply ⟨[7], false⟩ ⟨[65], false⟩
        ([const_stage [88] 1, append_stage 66 0, const_stage [89] 2] ++ [picky_stage 67 0])
        true 0).dest = ⟨[65, 66, 67], false⟩ :=
  have hno : ∀ (k : Nat) (g : git_filter),
      ([const_stage [88] 1, append_stage 66 0, const_stage [89] 2]
        ++ [picky_stage 67 0])[k]? = some g →
      git_buf_oom (g.apply ⟨[], false⟩ (pipeline_result
        (([const_stage [88] 1, append_stage 66 0, const_stage [89] 2]
          ++ [picky_stage 67 0]).take k) ⟨[65], false⟩)).2 = false := by
    intro k g hk
    rcases k with _ | _ | _ | _ | k
    · simp at hk; subst hk; rfl
    · simp at hk; subst hk; rfl
    · simp at hk; subst hk; rfl
    · simp at hk; subst hk; rfl
    · simp at hk
  have h := git_filters_apply_last_success ⟨[7], false⟩ ⟨[65], false⟩
    [const_stage [88] 1, append_stage 66 0, const_stage [89] 2] (picky_stage 67 0) 0
    (by decide) rfl rfl hno rfl
  ⟨h.1, h.2.1⟩

/-- C20: for a non-empty source and a non-empty chain run without any out-of-memory
condition (pre-sizing succeeds, the buffers are not out of memory on entry, and no stage
leaves its destination out of memory on the input the pipeline gives it),
`git_filters_apply` returns success and `dest` holds exactly what the last stage
`f` wrote into its destination, whether `f` returned zero or not; `f` was called on the
pipeline result of the stages before it. -/
theorem git_filters_apply_last_written (dest source : git_buf) (pre : List git_filter)
    (f : git_filter) (dst_indet : Nat) (hsrc : source.size ≠ 0)
    (hs : git_buf_oom source = false) (hd : git_buf_oom dest = false)
    (hno : ∀ (k : Nat) (g : git_filter), (pre ++ [f])[k]? = some g →
      git_buf_oom (g.apply ⟨[], false⟩ (pipeline_result ((pre ++ [f]).take k) source)).2
        = false) :
    (git_filters_apply dest source (pre ++ [f]) true dst_indet).ret = GIT_SUCCESS ∧
      (git_filters_apply dest source (pre ++ [f]) true dst_indet).dest
        = (f.apply ⟨[], false⟩ (pipeline_result pre source)).2 ∧
      (git_filters_apply dest source (pre ++ [f]) true dst_indet).calls[pre.length]?
        = some (pre.length, pipeline_result pre source) := by
  obtain ⟨h1, h2⟩ := git_filters_apply_snoc dest source pre f dst_indet hsrc hs hd hno
  refine ⟨h1, h2, ?_⟩
  rw [git_filters_apply_log dest source (pre ++ [f]) dst_indet hsrc hs hd hno,
    List.getElem?_map, List.getElem?_range (by simp)]
  simp

/-- Witness of C20: a stage that appends a byte and would leave its destination out of
memory on a longer input, then a last stage that writes one byte and returns status one;
`dest` holds the byte of the last stage. -/
theorem git_filters_apply_last_written_witness :
    (git_filters_apply ⟨[7], false⟩ ⟨[65], false⟩
        ([picky_stage 66 0] ++ [const_stage [88] 1]) true 0).ret = GIT_SUCCESS ∧
    (git_filters_apply ⟨[7], false⟩ ⟨[65], false⟩
        ([picky_stage 66 0] ++ [const_stage [88] 1]) true 0).dest = ⟨[88], false⟩ :=
  have hno : ∀ (k : Nat) (g : git_filter),
      ([picky_stage 66 0] ++ [const_stage [88] 1])[k]? = some g →
      git_buf_oom (g.apply ⟨[], false⟩ (pipeline_result
        (([picky_stage 66 0] ++ [const_stage [88] 1]).take k) ⟨[65], false⟩)).2 = false := by
    intro k g hk
    rcases k with _ | _ | k
    · simp at hk; subst hk; rfl
    · simp at hk; subst hk; rfl
    · simp at hk
  have h := git_filters_apply_last_written ⟨[7], false⟩ ⟨[65], false⟩
    [picky_stage 66 0] (const_stage [88] 1) 0 (by decide) rfl rfl hno
  ⟨h.1, h.2.1⟩

end Filter
